import Mathlib

/-!
Verification development for the metadata-extraction worker
(src/metadata_lab/metadata.py).

The embedding models:
- the value normalizer `convert_value` inside `extract_exif` (PyVal, PyFloat);
- the semantics of `bytes.decode("utf-8", errors="ignore")` used by the
  byte-string branch of the normalizer (utf8Decode, utf8Encode);
- `extract_exif` itself, over an abstract result of `image._getexif()`;
- `metadata_exists` over an abstract result of `s3.head_object`;
- `lambda_handler` as a sequential processor over a list of parsed record
  bodies, an S3 store state, and a trace of head/get/put calls.

Machine-level concerns (IEEE rounding of `float(...)`, actual network I/O)
are outside the model: Python floats are modelled as exact rationals plus
a nan marker, and S3 is a key-value state with explicit fault injection.
-/

namespace MetadataLab

/-- Keys of Python dictionaries that can occur inside EXIF values:
integers or strings (strings are lists of Unicode code points). -/
inductive PyKey where
  | int (n : Int)
  | str (cs : List Nat)
deriving DecidableEq, Repr

/-- Python float values as produced by `float(IFDRational(n, d))`:
an exact rational when the denominator is nonzero, nan when it is zero
(PIL defines `IFDRational(n, 0)` to hold `float("nan")`). -/
inductive PyFloat where
  | finite (q : ℚ)
  | nan
deriving DecidableEq, Repr

/-- Python values reachable by `convert_value` in `extract_exif`:
IFDRational values, byte strings, strings, ints, floats, bools, None,
dicts, lists, tuples, and a marker for any other (unrecognized) type,
which `convert_value` returns unchanged. Strings carry their code
points. -/
inductive PyVal where
  | rational (n d : Int)
  | bytes (bs : List Nat)
  | str (cs : List Nat)
  | int (n : Int)
  | float (f : PyFloat)
  | bool (b : Bool)
  | none
  | dict (kvs : List (PyKey × PyVal))
  | list (xs : List PyVal)
  | tuple (xs : List PyVal)
  | other
deriving Repr

/-- A byte is a UTF-8 continuation byte (0x80-0xBF). -/
def isCont (b : Nat) : Bool := 0x80 ≤ b && b < 0xC0

/-- Lower bound for the first continuation byte after lead `b`
(UTF-8 restricted ranges: 0xE0 needs 0xA0-, 0xF0 needs 0x90-). -/
def cont1Lo (b : Nat) : Nat :=
  if b = 0xE0 then 0xA0 else if b = 0xF0 then 0x90 else 0x80

/-- Strict upper bound for the first continuation byte after lead `b`
(0xED allows up to 0x9F, 0xF4 up to 0x8F). -/
def cont1Hi (b : Nat) : Nat :=
  if b = 0xED then 0xA0 else if b = 0xF4 then 0x90 else 0xC0

/-- Semantics of `bs.decode("utf-8", errors=...)`: `ig = true` is
`errors="ignore"` (invalid bytes are dropped), `ig = false` is strict
decoding (invalid input raises, modelled as `Except.error`). Returns
the decoded code points. On an invalid or truncated sequence in ignore
mode the lead byte is dropped and decoding resumes; stray continuation
bytes are then dropped one by one, which yields the same output as
CPython dropping whole maximal invalid subparts. -/
def utf8Decode (ig : Bool) : List Nat → Except Unit (List Nat)
  | [] => .ok []
  | b :: bs =>
    if b < 0x80 then
      (utf8Decode ig bs).map (fun cs => b :: cs)
    else if b < 0xC2 then
      if ig then utf8Decode ig bs else .error ()
    else if b < 0xE0 then
      match bs with
      | b2 :: bs2 =>
        if isCont b2 then
          (utf8Decode ig bs2).map (fun cs => ((b - 0xC0) * 64 + (b2 - 0x80)) :: cs)
        else
          if ig then utf8Decode ig (b2 :: bs2) else .error ()
      | [] => if ig then .ok [] else .error ()
    else if b < 0xF0 then
      match bs with
      | b2 :: b3 :: bs3 =>
        if cont1Lo b ≤ b2 && b2 < cont1Hi b && isCont b3 then
          (utf8Decode ig bs3).map
            (fun cs => ((b - 0xE0) * 4096 + (b2 - 0x80) * 64 + (b3 - 0x80)) :: cs)
        else
          if ig then utf8Decode ig (b2 :: b3 :: bs3) else .error ()
      | [b2] => if ig then utf8Decode ig [b2] else .error ()
      | [] => if ig then .ok [] else .error ()
    else if b < 0xF5 then
      match bs with
      | b2 :: b3 :: b4 :: bs4 =>
        if cont1Lo b ≤ b2 && b2 < cont1Hi b && isCont b3 && isCont b4 then
          (utf8Decode ig bs4).map
            (fun cs =>
              ((b - 0xF0) * 262144 + (b2 - 0x80) * 4096 + (b3 - 0x80) * 64 + (b4 - 0x80)) :: cs)
        else
          if ig then utf8Decode ig (b2 :: b3 :: b4 :: bs4) else .error ()
      | [b2, b3] => if ig then utf8Decode ig [b2, b3] else .error ()
      | [b2] => if ig then utf8Decode ig [b2] else .error ()
      | [] => if ig then .ok [] else .error ()
    else
      if ig then utf8Decode ig bs else .error ()

/-- UTF-8 encoding of a single code point (assumed a Unicode scalar
value). Used to state what "bytes decodable as UTF-8" means. -/
def utf8EncodeChar (c : Nat) : List Nat :=
  if c < 0x80 then [c]
  else if c < 0x800 then [0xC0 + c / 64, 0x80 + c % 64]
  else if c < 0x10000 then
    [0xE0 + c / 4096, 0x80 + c / 64 % 64, 0x80 + c % 64]
  else
    [0xF0 + c / 262144, 0x80 + c / 4096 % 64, 0x80 + c / 64 % 64, 0x80 + c % 64]

/-- UTF-8 encoding of a code-point sequence. -/
def utf8Encode (cs : List Nat) : List Nat := (cs.map utf8EncodeChar).flatten

/-- A Unicode scalar value: in range and not a surrogate. -/
def ValidCp (c : Nat) : Prop := c < 0x110000 ∧ ¬ (0xD800 ≤ c ∧ c < 0xE000)

instance (c : Nat) : Decidable (ValidCp c) := by
  unfold ValidCp; infer_instance

/-- The debug string representation `str(val)` of a bytes object, the
fallback in the byte-string branch of `convert_value`: the code points
of a literal like b with quotes, printable ASCII kept, other bytes
escaped as backslash-x-hex. (This branch is proved unreachable.) -/
def pyBytesRepr (bs : List Nat) : List Nat :=
  [98, 39] ++
    (bs.map (fun b =>
      if 0x20 ≤ b && b < 0x7F && b ≠ 39 && b ≠ 92 then [b]
      else [92, 120, Nat.digitChar (b / 16) |>.toNat, Nat.digitChar (b % 16) |>.toNat])).flatten
    ++ [39]

/-- Model of `convert_value` from `extract_exif`: dispatches on the runtime type
of the value. IFDRational becomes a float, bytes are decoded as UTF-8
with errors ignored (falling back to the debug representation if the
decode were to raise), dicts are rebuilt with each value converted and
keys preserved, lists and tuples both become lists of converted
elements, everything else is returned unchanged. -/
def convert_value : PyVal → PyVal
  | .rational n d =>
      .float (if d = 0 then .nan else .finite ((n : ℚ) / (d : ℚ)))
  | .bytes bs =>
      match utf8Decode true bs with
      | .ok cs => .str cs
      | .error _ => .str (pyBytesRepr bs)
  | .dict kvs => .dict (kvs.attach.map (fun p => (p.1.1, convert_value p.1.2)))
  | .list xs => .list (xs.attach.map (fun p => convert_value p.1))
  | .tuple xs => .list (xs.attach.map (fun p => convert_value p.1))
  | .str cs => .str cs
  | .int n => .int n
  | .float f => .float f
  | .bool b => .bool b
  | .none => .none
  | .other => .other
termination_by v => sizeOf v
decreasing_by
  · have h1 := List.sizeOf_lt_of_mem p.2
    have h2 : sizeOf p.1.2 < sizeOf p.1 := by
      obtain ⟨⟨k, v⟩, hp⟩ := p
      simp only
      cases k <;> simp
    simp only [PyVal.dict.sizeOf_spec]
    omega
  · have h1 := List.sizeOf_lt_of_mem p.2
    simp only [PyVal.list.sizeOf_spec]
    omega
  · have h1 := List.sizeOf_lt_of_mem p.2
    simp only [PyVal.tuple.sizeOf_spec]
    omega

/-- The shape of a Python value: leaves are erased, a dict keeps its
keys in order, and both sequences (list, tuple) keep only their
elements. This is what "same key set" and "same length, in order"
mean for the normalizer. -/
inductive PyShape where
  | leaf
  | dict (ks : List (PyKey × PyShape))
  | seq (ss : List PyShape)
deriving Repr

/-- Shape of a value. -/
def shape : PyVal → PyShape
  | .dict kvs => .dict (kvs.attach.map (fun p => (p.1.1, shape p.1.2)))
  | .list xs => .seq (xs.attach.map (fun p => shape p.1))
  | .tuple xs => .seq (xs.attach.map (fun p => shape p.1))
  | _ => .leaf
termination_by v => sizeOf v
decreasing_by
  · have h1 := List.sizeOf_lt_of_mem p.2
    have h2 : sizeOf p.1.2 < sizeOf p.1 := by
      obtain ⟨⟨k, v⟩, hp⟩ := p
      simp only
      cases k <;> simp
    simp only [PyVal.dict.sizeOf_spec]
    omega
  · have h1 := List.sizeOf_lt_of_mem p.2
    simp only [PyVal.list.sizeOf_spec]
    omega
  · have h1 := List.sizeOf_lt_of_mem p.2
    simp only [PyVal.tuple.sizeOf_spec]
    omega


/-- A key of the cleaned EXIF dict: `ExifTags.TAGS.get(tag_id, tag_id)`
gives the human-readable name when known, otherwise the raw numeric
identifier. -/
inductive TagKey where
  | name (s : String)
  | id (n : Nat)
deriving DecidableEq, Repr

/-- The key under which a raw tag id is stored: its name from the tag
table when present, the raw id otherwise. -/
def tagKeyOf (tags : Nat → Option String) (tid : Nat) : TagKey :=
  match tags tid with
  | some s => .name s
  | Option.none => .id tid

/-- Python dict assignment `d[k] = v`: replace in place when the key is
present, append otherwise (insertion order preserved). -/
def dictInsert (d : List (TagKey × PyVal)) (k : TagKey) (v : PyVal) :
    List (TagKey × PyVal) :=
  if d.any (fun p => p.1 = k) then
    d.map (fun p => if p.1 = k then (k, v) else p)
  else d ++ [(k, v)]

/-- The `exif_clean` loop of `extract_exif`: for each `(tag_id, value)`
pair of the raw EXIF mapping, in order, assign the converted value
under the resolved key. -/
def buildExifClean (tags : Nat → Option String) (raw : List (Nat × PyVal)) :
    List (TagKey × PyVal) :=
  raw.foldl (fun acc p => dictInsert acc (tagKeyOf tags p.1) (convert_value p.2)) []

/-- Model of `extract_exif` over the outcome of `image._getexif()`:
`Except.error` is an exception raised while reading the tag data
(caught by the surrounding try, logged, `None` returned); `.ok none`
is `_getexif()` returning `None`; `.ok (some raw)` is a raw tag
mapping, which is falsy when empty. The whole body is wrapped in
try/except, so this function is total: no error propagates out of it. -/
def extract_exif (tags : Nat → Option String)
    (res : Except Unit (Option (List (Nat × PyVal)))) :
    Option (List (TagKey × PyVal)) :=
  match res with
  | .error _ => Option.none
  | .ok Option.none => Option.none
  | .ok (some raw) =>
    if raw.isEmpty then Option.none else some (buildExifClean tags raw)

/-- The `exif` field of the metadata document:
`extract_exif(image) or {}` — `None` (and a falsy empty dict) is
replaced by the empty mapping. -/
def exifOrEmpty (o : Option (List (TagKey × PyVal))) : List (TagKey × PyVal) :=
  match o with
  | Option.none => []
  | some d => if d.isEmpty then [] else d

/-- Outcome of `s3.head_object`: success, a `ClientError` carrying its
error code, or any other exception (`nonClientError`), which the
`except ClientError` clause does not catch. -/
inductive HeadResult where
  | ok
  | clientError (code : String)
  | nonClientError (e : Nat)
deriving DecidableEq, Repr

/-- Model of `metadata_exists`: returns `true` when `head_object` succeeds,
`false` when it raises a `ClientError` with code "404", and re-raises
(modelled as `Except.error` carrying the original outcome) on every
other `ClientError` code; a non-`ClientError` exception is not caught
at all and also propagates. -/
def metadata_exists (r : HeadResult) : Except HeadResult Bool :=
  match r with
  | .ok => .ok true
  | .clientError code => if code = "404" then .ok false else .error (.clientError code)
  | .nonClientError e => .error (.nonClientError e)

/-- The decoded-image structure the pipeline reads from `Image.open`:
format, dimensions, and the outcome of `_getexif()`. -/
structure ImageInfo where
  format : String
  width : Nat
  height : Nat
  exifRes : Except Unit (Option (List (Nat × PyVal)))

/-- The metadata document assembled by `lambda_handler`: exactly the
nine fields written to the store, in source order. -/
structure Document where
  source_bucket : String
  source_key : String
  etag : Option String
  format : String
  width : Nat
  height : Nat
  file_size_bytes : Nat
  exif : List (TagKey × PyVal)
  processed_at : String

/-- An object in the blob store: either a stored blob (with advertised
content length and, when the payload is a decodable image, its decoded
structure) or a metadata JSON document written by the pipeline (not a
decodable image). -/
inductive Entry where
  | blob (contentLength : Nat) (image : Option ImageInfo)
  | jsonDoc (d : Document)

/-- The blob store: an association of (bucket, key) to objects. -/
def S3State := List ((String × String) × Entry)

/-- Store lookup. -/
def lookup (st : S3State) (bk : String × String) : Option Entry :=
  (List.find? (fun p => p.1 = bk) st).map (fun p => p.2)

/-- Store write (`put_object`): overwrites any existing object at the
key. -/
def putStore (st : S3State) (bk : String × String) (e : Entry) : S3State :=
  (bk, e) :: List.filter (fun p => p.1 ≠ bk) st

/-- A parsed record body: either malformed (json.loads or a required
field access raises) or the three addressing fields, `etag` optional. -/
inductive RecordBody where
  | malformed
  | ok (bucket key : String) (etag : Option String)

/-- Splitting a character list on the path separator, keeping empty
components (the semantics of splitting a POSIX path into components). -/
def splitSlash (cs : List Char) : List (List Char) :=
  cs.foldr
    (fun c acc =>
      if c = '/' then [] :: acc
      else
        match acc with
        | a :: as => (c :: a) :: as
        | [] => [[c]])
    [[]]

/-- Semantics of `Path(key).name`: the last path component after dropping empty
components and single dots (pathlib normalizes those away). -/
def pathName (key : String) : String :=
  String.mk
    ((List.filter (fun s => decide (s ≠ []) && decide (s ≠ ['.']))
      (splitSlash key.toList)).getLastD [])

/-- The environment of one invocation: configuration, the EXIF tag-name
table, the clock, and fault injection for the three store calls. A
`headFault` is a non-404 failure of `head_object`; `getFault` and
`putFault` make `get_object` / `put_object` raise. -/
structure Env where
  outputPfx : String
  tags : Nat → Option String
  now : String
  headFault : String → String → Option HeadResult
  getFault : String → String → Bool
  putFault : String → String → Bool

/-- The errors `lambda_handler` can re-raise. -/
inductive Err where
  | malformed
  | headErr (r : HeadResult)
  | getErr
  | decodeErr
  | putErr
deriving DecidableEq, Repr

/-- The calls made against the store, in order per kind. `puts` records
successful writes together with the document written. -/
structure Trace where
  heads : List (String × String)
  gets : List (String × String)
  puts : List (String × String × Document)

/-- The outcome of `s3.head_object(bucket, key)` against the current
store: an injected fault if any, otherwise success when the key is
present and a 404 `ClientError` when it is not. -/
def headResult (env : Env) (st : S3State) (b k : String) : HeadResult :=
  match env.headFault b k with
  | some r => r
  | Option.none =>
    match lookup st (b, k) with
    | some _ => .ok
    | Option.none => .clientError "404"

/-- The derived output path: `<output_prefix>/<filename>.json`. -/
def metadataKey (env : Env) (key : String) : String :=
  env.outputPfx ++ "/" ++ pathName key ++ ".json"

/-- Processing of a single record inside the loop of `lambda_handler`:
parse, derive the output path, idempotency check, fetch, decode,
extract, write. Returns the new store, the extended trace, and the
exception if one was raised (the loop re-raises it). -/
def processRecord (env : Env) (st : S3State) (tr : Trace) (r : RecordBody) :
    S3State × Trace × Option Err :=
  match r with
  | .malformed => (st, tr, some .malformed)
  | .ok bucket key etag =>
    let mkey := metadataKey env key
    let tr1 : Trace := { tr with heads := tr.heads ++ [(bucket, mkey)] }
    match metadata_exists (headResult env st bucket mkey) with
    | .error r => (st, tr1, some (.headErr r))
    | .ok true => (st, tr1, Option.none)
    | .ok false =>
      if env.getFault bucket key then (st, tr1, some .getErr)
      else
        match lookup st (bucket, key) with
        | Option.none => (st, tr1, some .getErr)
        | some entry =>
          let tr2 : Trace := { tr1 with gets := tr1.gets ++ [(bucket, key)] }
          match entry with
          | .jsonDoc _ => (st, tr2, some .decodeErr)
          | .blob fsize imgOpt =>
            match imgOpt with
            | Option.none => (st, tr2, some .decodeErr)
            | some img =>
              let doc : Document :=
                { source_bucket := bucket
                  source_key := key
                  etag := etag
                  format := img.format
                  width := img.width
                  height := img.height
                  file_size_bytes := fsize
                  exif := exifOrEmpty (extract_exif env.tags img.exifRes)
                  processed_at := env.now }
              if env.putFault bucket mkey then (st, tr2, some .putErr)
              else
                (putStore st (bucket, mkey) (.jsonDoc doc),
                 { tr2 with puts := tr2.puts ++ [(bucket, mkey, doc)] },
                 Option.none)

/-- Model of `lambda_handler`: processes the batch in order; the first exception
aborts the loop and is re-raised, otherwise the fixed success signal
`{"statusCode": 200}` (modelled as 200) is returned. -/
def lambda_handler (env : Env) : List RecordBody → S3State → Trace →
    S3State × Trace × Except Err Nat
  | [], st, tr => (st, tr, .ok 200)
  | r :: rs, st, tr =>
    match processRecord env st tr r with
    | (st2, tr2, Option.none) => lambda_handler env rs st2 tr2
    | (st2, tr2, some e) => (st2, tr2, .error e)


/-- Concrete environment for witnesses: output prefix "metadata", empty
tag table, a fixed clock, and a fetch fault injected only for
photos/img2.jpg in bucket b. -/
def envW : Env :=
  { outputPfx := "metadata"
    tags := fun _ => Option.none
    now := "2024-01-01T00:00:00"
    headFault := fun _ _ => Option.none
    getFault := fun b k => b == "b" && k == "photos/img2.jpg"
    putFault := fun _ _ => false }

/-- Concrete decoded image: a 100 by 200 JPEG with no tag data. -/
def imgW : ImageInfo :=
  { format := "JPEG", width := 100, height := 200, exifRes := .ok Option.none }

/-- Concrete store holding three source images in bucket b. -/
def stW : S3State :=
  [ (("b", "photos/img1.jpg"), .blob 1111 (some imgW)),
    (("b", "photos/img2.jpg"), .blob 2222 (some imgW)),
    (("b", "photos/img3.jpg"), .blob 3333 (some imgW)) ]

/-- Empty trace. -/
def trW : Trace := { heads := [], gets := [], puts := [] }

/-- The three messages of the batch-abort scenario. -/
def m1W : RecordBody := .ok "b" "photos/img1.jpg" (some "e1")

def m2W : RecordBody := .ok "b" "photos/img2.jpg" (some "e2")

def m3W : RecordBody := .ok "b" "photos/img3.jpg" (some "e3")

/-- The document written for the first message. -/
def doc1W : Document :=
  { source_bucket := "b"
    source_key := "photos/img1.jpg"
    etag := some "e1"
    format := "JPEG"
    width := 100
    height := 200
    file_size_bytes := 1111
    exif := []
    processed_at := "2024-01-01T00:00:00" }

/-- Store after the first message has been processed. -/
def st1W : S3State := putStore stW ("b", "metadata/img1.jpg.json") (.jsonDoc doc1W)

/-- Trace after the first message has been processed. -/
def tr1W : Trace :=
  { heads := [("b", "metadata/img1.jpg.json")]
    gets := [("b", "photos/img1.jpg")]
    puts := [("b", "metadata/img1.jpg.json", doc1W)] }

/-- Trace after the second message fails its fetch. -/
def tr2W : Trace :=
  { heads := [("b", "metadata/img1.jpg.json"), ("b", "metadata/img2.jpg.json")]
    gets := [("b", "photos/img1.jpg")]
    puts := [("b", "metadata/img1.jpg.json", doc1W)] }

/-- The document of the happy-path scenario (etag abc). -/
def docCW : Document :=
  { source_bucket := "b"
    source_key := "photos/img1.jpg"
    etag := some "abc"
    format := "JPEG"
    width := 100
    height := 200
    file_size_bytes := 1111
    exif := []
    processed_at := "2024-01-01T00:00:00" }

/-- Messages of the duplicate-filename scenario: two keys with the same
last segment in the same bucket. -/
def stDW : S3State := [(("bkt", "a/img.jpg"), .blob 10 (some imgW))]


/-- Unfolding of `convert_value` on a dict, without `attach`. -/
theorem convert_value_dict (kvs : List (PyKey × PyVal)) :
    convert_value (.dict kvs) = .dict (kvs.map (fun p => (p.1, convert_value p.2))) := by
  rw [convert_value]
  simp [List.map_attach, List.pmap_eq_map]

/-- Unfolding of `convert_value` on a list, without `attach`. -/
theorem convert_value_list (xs : List PyVal) :
    convert_value (.list xs) = .list (xs.map convert_value) := by
  rw [convert_value]
  simp [List.map_attach, List.pmap_eq_map]

/-- Unfolding of `convert_value` on a tuple, without `attach`. -/
theorem convert_value_tuple (xs : List PyVal) :
    convert_value (.tuple xs) = .list (xs.map convert_value) := by
  rw [convert_value]
  simp [List.map_attach, List.pmap_eq_map]

/-- Unfolding of `convert_value` on an IFDRational. -/
theorem convert_value_rational (n d : Int) :
    convert_value (.rational n d)
      = .float (if d = 0 then .nan else .finite ((n : ℚ) / (d : ℚ))) := by
  rw [convert_value]

/-- Unfolding of `convert_value` on a byte string. -/
theorem convert_value_bytes (bs : List Nat) :
    convert_value (.bytes bs)
      = match utf8Decode true bs with
        | .ok cs => .str cs
        | .error _ => .str (pyBytesRepr bs) := by
  rw [convert_value]

/-- Strings are fixed by `convert_value`. -/
theorem convert_value_str (cs : List Nat) : convert_value (.str cs) = .str cs := by
  rw [convert_value]

/-- Ints are fixed by `convert_value`. -/
theorem convert_value_int (n : Int) : convert_value (.int n) = .int n := by
  rw [convert_value]

/-- Floats are fixed by `convert_value`. -/
theorem convert_value_float (f : PyFloat) : convert_value (.float f) = .float f := by
  rw [convert_value]

/-- Bools are fixed by `convert_value`. -/
theorem convert_value_bool (b : Bool) : convert_value (.bool b) = .bool b := by
  rw [convert_value]

/-- None is fixed by `convert_value`. -/
theorem convert_value_none : convert_value .none = .none := by
  rw [convert_value]

/-- Unrecognized values are fixed by `convert_value`. -/
theorem convert_value_other : convert_value .other = .other := by
  rw [convert_value]

/-- Unfolding of `shape` on a dict. -/
theorem shape_dict (kvs : List (PyKey × PyVal)) :
    shape (.dict kvs) = .dict (kvs.map (fun p => (p.1, shape p.2))) := by
  rw [shape]
  simp [List.map_attach, List.pmap_eq_map]

/-- Unfolding of `shape` on a list. -/
theorem shape_list (xs : List PyVal) :
    shape (.list xs) = .seq (xs.map shape) := by
  rw [shape]
  simp [List.map_attach, List.pmap_eq_map]

/-- Unfolding of `shape` on a tuple. -/
theorem shape_tuple (xs : List PyVal) :
    shape (.tuple xs) = .seq (xs.map shape) := by
  rw [shape]
  simp [List.map_attach, List.pmap_eq_map]

/-- Every non-dict, non-sequence value has leaf shape. -/
theorem shape_leaf (v : PyVal)
    (h : (match v with
          | .dict _ => False
          | .list _ => False
          | .tuple _ => False
          | _ => True)) :
    shape v = .leaf := by
  cases v <;> simp at h <;> rw [shape] <;> simp

theorem shape_convert_value_aux :
    ∀ (m : Nat) (v : PyVal), sizeOf v ≤ m → shape (convert_value v) = shape v := by
  intro m
  induction m with
  | zero =>
    intro v h
    cases v <;> simp_all
  | succ m ih =>
    intro v h
    cases v with
    | dict kvs =>
      rw [convert_value_dict, shape_dict, shape_dict, List.map_map]
      refine congrArg _ (List.map_congr_left ?_)
      intro p hp
      have h1 := List.sizeOf_lt_of_mem hp
      have h2 : sizeOf p.2 < sizeOf p := by
        obtain ⟨k, v⟩ := p
        cases k <;> simp
      have h3 : sizeOf (PyVal.dict kvs) = 1 + sizeOf kvs := by simp
      simp only [Function.comp]
      rw [ih p.2 (by omega)]
    | list xs =>
      rw [convert_value_list, shape_list, shape_list, List.map_map]
      refine congrArg _ (List.map_congr_left ?_)
      intro x hx
      have h1 := List.sizeOf_lt_of_mem hx
      have h3 : sizeOf (PyVal.list xs) = 1 + sizeOf xs := by simp
      simp only [Function.comp]
      rw [ih x (by omega)]
    | tuple xs =>
      rw [convert_value_tuple, shape_list, shape_tuple, List.map_map]
      refine congrArg _ (List.map_congr_left ?_)
      intro x hx
      have h1 := List.sizeOf_lt_of_mem hx
      have h3 : sizeOf (PyVal.tuple xs) = 1 + sizeOf xs := by simp
      simp only [Function.comp]
      rw [ih x (by omega)]
    | bytes bs =>
      rw [convert_value_bytes]
      cases utf8Decode true bs <;> simp only [] <;>
        rw [shape_leaf _ trivial, shape_leaf _ trivial]
    | rational n d =>
      rw [convert_value_rational, shape_leaf _ trivial, shape_leaf _ trivial]
    | str cs => rw [convert_value_str]
    | int n => rw [convert_value_int]
    | float f => rw [convert_value_float]
    | bool b => rw [convert_value_bool]
    | none => rw [convert_value_none]
    | other => rw [convert_value_other]

theorem except_map_ok (f : List Nat → List Nat) (cs : List Nat) :
    (Except.ok cs : Except Unit (List Nat)).map f = .ok (f cs) := rfl

set_option maxHeartbeats 1600000 in
/-- One unfolding step of `utf8Decode` on a cons cell. -/
theorem utf8Decode_cons (ig : Bool) (b : Nat) (bs : List Nat) :
    utf8Decode ig (b :: bs) =
    (if b < 0x80 then
      (utf8Decode ig bs).map (fun cs => b :: cs)
    else if b < 0xC2 then
      if ig then utf8Decode ig bs else .error ()
    else if b < 0xE0 then
      (match bs with
      | b2 :: bs2 =>
        if isCont b2 then
          (utf8Decode ig bs2).map (fun cs => ((b - 0xC0) * 64 + (b2 - 0x80)) :: cs)
        else
          if ig then utf8Decode ig (b2 :: bs2) else .error ()
      | [] => if ig then .ok [] else .error ())
    else if b < 0xF0 then
      (match bs with
      | b2 :: b3 :: bs3 =>
        if cont1Lo b ≤ b2 && b2 < cont1Hi b && isCont b3 then
          (utf8Decode ig bs3).map
            (fun cs => ((b - 0xE0) * 4096 + (b2 - 0x80) * 64 + (b3 - 0x80)) :: cs)
        else
          if ig then utf8Decode ig (b2 :: b3 :: bs3) else .error ()
      | [b2] => if ig then utf8Decode ig [b2] else .error ()
      | [] => if ig then .ok [] else .error ())
    else if b < 0xF5 then
      (match bs with
      | b2 :: b3 :: b4 :: bs4 =>
        if cont1Lo b ≤ b2 && b2 < cont1Hi b && isCont b3 && isCont b4 then
          (utf8Decode ig bs4).map
            (fun cs =>
              ((b - 0xF0) * 262144 + (b2 - 0x80) * 4096 + (b3 - 0x80) * 64 + (b4 - 0x80)) :: cs)
        else
          if ig then utf8Decode ig (b2 :: b3 :: b4 :: bs4) else .error ()
      | [b2, b3] => if ig then utf8Decode ig [b2, b3] else .error ()
      | [b2] => if ig then utf8Decode ig [b2] else .error ()
      | [] => if ig then .ok [] else .error ())
    else
      if ig then utf8Decode ig bs else .error ()) := by
  rcases bs with _ | ⟨b2, _ | ⟨b3, _ | ⟨b4, bs4⟩⟩⟩ <;> rfl

/-- Decoding after an ASCII byte. -/
theorem utf8Decode_encodeChar_ascii (ig : Bool) (c : Nat) (h : c < 0x80) (bs : List Nat) :
    utf8Decode ig (utf8EncodeChar c ++ bs) = (utf8Decode ig bs).map (fun cs => c :: cs) := by
  rw [utf8EncodeChar, if_pos h]
  simp only [List.cons_append, List.nil_append]
  rw [utf8Decode_cons, if_pos h]

/-- Decoding after a two-byte UTF-8 sequence. -/
theorem utf8Decode_encodeChar_two (ig : Bool) (c : Nat) (h1 : 0x80 ≤ c) (h2 : c < 0x800)
    (bs : List Nat) :
    utf8Decode ig (utf8EncodeChar c ++ bs) = (utf8Decode ig bs).map (fun cs => c :: cs) := by
  rw [utf8EncodeChar, if_neg (by omega : ¬ c < 0x80), if_pos h2]
  simp only [List.cons_append, List.nil_append]
  rw [utf8Decode_cons, if_neg (by omega), if_neg (by omega), if_pos (by omega)]
  simp only []
  rw [if_pos (show isCont (0x80 + c % 64) = true by simp [isCont]; omega)]
  have hv : (0xC0 + c / 64 - 0xC0) * 64 + (0x80 + c % 64 - 0x80) = c := by omega
  rw [hv]

/-- Decoding after a three-byte UTF-8 sequence (no surrogates). -/
theorem utf8Decode_encodeChar_three (ig : Bool) (c : Nat) (h1 : 0x800 ≤ c) (h2 : c < 0x10000)
    (h3 : ¬ (0xD800 ≤ c ∧ c < 0xE000)) (bs : List Nat) :
    utf8Decode ig (utf8EncodeChar c ++ bs) = (utf8Decode ig bs).map (fun cs => c :: cs) := by
  rw [utf8EncodeChar, if_neg (by omega : ¬ c < 0x80), if_neg (by omega : ¬ c < 0x800),
    if_pos h2]
  simp only [List.cons_append, List.nil_append]
  rw [utf8Decode_cons, if_neg (by omega), if_neg (by omega), if_neg (by omega),
    if_pos (by omega)]
  simp only []
  rw [if_pos ?cond]
  case cond =>
    simp only [cont1Lo, cont1Hi, isCont, Bool.and_eq_true, decide_eq_true_eq]
    refine ⟨⟨?_, ?_⟩, ?_⟩ <;> (try split_ifs) <;> omega
  have hv : (0xE0 + c / 4096 - 0xE0) * 4096 + (0x80 + c / 64 % 64 - 0x80) * 64
      + (0x80 + c % 64 - 0x80) = c := by omega
  rw [hv]

/-- Decoding after a four-byte UTF-8 sequence. -/
theorem utf8Decode_encodeChar_four (ig : Bool) (c : Nat) (h1 : 0x10000 ≤ c)
    (h2 : c < 0x110000) (bs : List Nat) :
    utf8Decode ig (utf8EncodeChar c ++ bs) = (utf8Decode ig bs).map (fun cs => c :: cs) := by
  rw [utf8EncodeChar, if_neg (by omega : ¬ c < 0x80), if_neg (by omega : ¬ c < 0x800),
    if_neg (by omega : ¬ c < 0x10000)]
  simp only [List.cons_append, List.nil_append]
  rw [utf8Decode_cons, if_neg (by omega), if_neg (by omega), if_neg (by omega),
    if_neg (by omega), if_pos (by omega)]
  simp only []
  rw [if_pos ?cond]
  case cond =>
    simp only [cont1Lo, cont1Hi, isCont, Bool.and_eq_true, decide_eq_true_eq]
    refine ⟨⟨⟨?_, ?_⟩, ?_⟩, ?_⟩ <;> (try split_ifs) <;> omega
  have hv : (0xF0 + c / 262144 - 0xF0) * 262144 + (0x80 + c / 4096 % 64 - 0x80) * 4096
      + (0x80 + c / 64 % 64 - 0x80) * 64 + (0x80 + c % 64 - 0x80) = c := by omega
  rw [hv]

/-- Round trip: decoding an encoded sequence of Unicode scalar values
recovers it, in either error mode. This is what makes a byte string
"decodable as UTF-8". -/
theorem utf8Decode_encode (ig : Bool) :
    ∀ cps : List Nat, (∀ c ∈ cps, ValidCp c) →
      utf8Decode ig (utf8Encode cps) = .ok cps := by
  intro cps h
  induction cps with
  | nil => rfl
  | cons c cps ih =>
    have hc : ValidCp c := h c (by simp)
    have hrest : ∀ x ∈ cps, ValidCp x := fun x hx => h x (by simp [hx])
    have henc : utf8Encode (c :: cps) = utf8EncodeChar c ++ utf8Encode cps := by
      simp [utf8Encode]
    rw [henc]
    obtain ⟨hlt, hsur⟩ := hc
    by_cases hA : c < 0x80
    · rw [utf8Decode_encodeChar_ascii ig c hA, ih hrest, except_map_ok]
    · by_cases hB : c < 0x800
      · rw [utf8Decode_encodeChar_two ig c (by omega) hB, ih hrest, except_map_ok]
      · by_cases hC : c < 0x10000
        · rw [utf8Decode_encodeChar_three ig c (by omega) hC hsur, ih hrest, except_map_ok]
        · rw [utf8Decode_encodeChar_four ig c (by omega) hlt, ih hrest, except_map_ok]

theorem exists_ok_map (f : List Nat → List Nat) (e : Except Unit (List Nat))
    (h : ∃ cs, e = .ok cs) : ∃ cs, e.map f = .ok cs := by
  obtain ⟨cs, rfl⟩ := h
  exact ⟨f cs, rfl⟩

/-- In ignore mode the decoder never reports an error, on any byte
string whatsoever. -/
theorem utf8Decode_ignore_ok_aux :
    ∀ (m : Nat) (bs : List Nat), bs.length ≤ m → ∃ cs, utf8Decode true bs = .ok cs := by
  intro m
  induction m with
  | zero =>
    intro bs h
    rw [Nat.le_zero, List.length_eq_zero] at h
    subst h
    exact ⟨[], rfl⟩
  | succ m ih =>
    intro bs h
    match bs with
    | [] => exact ⟨[], rfl⟩
    | b :: bs =>
      simp only [List.length_cons] at h
      rw [utf8Decode_cons]
      simp only [eq_self_iff_true, if_true]
      split_ifs with h1 h2 h3 h4 h5
      · exact exists_ok_map _ _ (ih bs (by omega))
      · exact ih bs (by omega)
      · match bs with
        | b2 :: bs2 =>
          simp only [List.length_cons] at h
          simp only [eq_self_iff_true, if_true]
          split_ifs with hc
          · exact exists_ok_map _ _ (ih bs2 (by omega))
          · exact ih (b2 :: bs2) (by simp only [List.length_cons]; omega)
        | [] => exact ⟨[], rfl⟩
      · match bs with
        | b2 :: b3 :: bs3 =>
          simp only [List.length_cons] at h
          simp only [eq_self_iff_true, if_true]
          split_ifs with hc
          · exact exists_ok_map _ _ (ih bs3 (by omega))
          · exact ih (b2 :: b3 :: bs3) (by simp only [List.length_cons]; omega)
        | [b2] =>
          simp only [List.length_cons, List.length_nil] at h
          simp only [eq_self_iff_true, if_true]
          exact ih [b2] (by simp only [List.length_cons, List.length_nil]; omega)
        | [] => exact ⟨[], rfl⟩
      · match bs with
        | b2 :: b3 :: b4 :: bs4 =>
          simp only [List.length_cons] at h
          simp only [eq_self_iff_true, if_true]
          split_ifs with hc
          · exact exists_ok_map _ _ (ih bs4 (by omega))
          · exact ih (b2 :: b3 :: b4 :: bs4) (by simp only [List.length_cons]; omega)
        | [b2, b3] =>
          simp only [List.length_cons, List.length_nil] at h
          simp only [eq_self_iff_true, if_true]
          exact ih [b2, b3] (by simp only [List.length_cons, List.length_nil]; omega)
        | [b2] =>
          simp only [List.length_cons, List.length_nil] at h
          simp only [eq_self_iff_true, if_true]
          exact ih [b2] (by simp only [List.length_cons, List.length_nil]; omega)
        | [] => exact ⟨[], rfl⟩
      · exact ih bs (by omega)

/-- Ignore-mode decoding succeeds on every input. -/
theorem utf8Decode_ignore_ok (bs : List Nat) : ∃ cs, utf8Decode true bs = .ok cs :=
  utf8Decode_ignore_ok_aux bs.length bs le_rfl

/-- C6: for every byte-string input the normalizer returns a string and
never raises; bytes that are the UTF-8 encoding of a sequence of Unicode
scalar values are decoded to exactly that sequence, and non-decodable
bytes still yield some string. -/
theorem normalize_bytes_total_and_decodes :
    (∀ bs : List Nat, ∃ s, convert_value (.bytes bs) = .str s) ∧
    (∀ cps : List Nat, (∀ c ∈ cps, ValidCp c) →
      convert_value (.bytes (utf8Encode cps)) = .str cps) := by
  constructor
  · intro bs
    obtain ⟨cs, hcs⟩ := utf8Decode_ignore_ok bs
    exact ⟨cs, by rw [convert_value_bytes, hcs]⟩
  · intro cps h
    rw [convert_value_bytes, utf8Decode_encode true cps h]

/-- C6 witness: a concrete decodable byte string (UTF-8 for "hé" plus
a four-byte code point) normalizes to its decoded code points. -/
theorem normalize_bytes_witness :
    convert_value (.bytes (utf8Encode [104, 233, 66376])) = .str [104, 233, 66376] :=
  normalize_bytes_total_and_decodes.2 [104, 233, 66376] (by decide)

/-- C7: the normalizer preserves structure exactly and recursively:
shapes (dict key lists in order, sequence lengths) are unchanged, a
dict maps to a dict with the same keys and each value normalized, and
both sequence types map to a sequence of the converted elements in
order. -/
theorem normalize_preserves_structure :
    (∀ v : PyVal, shape (convert_value v) = shape v) ∧
    (∀ kvs : List (PyKey × PyVal),
      convert_value (.dict kvs) = .dict (kvs.map (fun p => (p.1, convert_value p.2)))) ∧
    (∀ xs : List PyVal, convert_value (.list xs) = .list (xs.map convert_value)) ∧
    (∀ xs : List PyVal, convert_value (.tuple xs) = .list (xs.map convert_value)) :=
  ⟨fun v => shape_convert_value_aux (sizeOf v) v le_rfl,
   convert_value_dict, convert_value_list, convert_value_tuple⟩

/-- C8: a rational value with nonzero denominator normalizes to the
equivalent (exact) floating-point number; in particular
Rational(1, 2) becomes 0.5. -/
theorem normalize_rational (n d : Int) (h : d ≠ 0) :
    convert_value (.rational n d) = .float (.finite ((n : ℚ) / (d : ℚ))) := by
  rw [convert_value_rational, if_neg h]

/-- C8 witness: normalize(Rational(1, 2)) is the float 0.5. -/
theorem normalize_rational_witness :
    convert_value (.rational 1 2) = .float (.finite (1 / 2 : ℚ)) ∧ (1 / 2 : ℚ) = 0.5 :=
  ⟨normalize_rational 1 2 (by decide), by norm_num⟩

/-- C9: the lossy UTF-8 decode inside the byte-string branch never
raises, so the debug-representation fallback is unreachable: the result
for bytes is always the lossy decoding, never `pyBytesRepr`. -/
theorem normalize_bytes_fallback_unreachable (bs : List Nat) :
    ∃ cs, utf8Decode true bs = .ok cs ∧ convert_value (.bytes bs) = .str cs := by
  obtain ⟨cs, hcs⟩ := utf8Decode_ignore_ok bs
  exact ⟨cs, hcs, by rw [convert_value_bytes, hcs]⟩

theorem lambda_handler_nil (env : Env) (st : S3State) (tr : Trace) :
    lambda_handler env [] st tr = (st, tr, .ok 200) := rfl

theorem lambda_handler_cons (env : Env) (r : RecordBody) (rs : List RecordBody)
    (st : S3State) (tr : Trace) :
    lambda_handler env (r :: rs) st tr =
      (match processRecord env st tr r with
      | (st2, tr2, Option.none) => lambda_handler env rs st2 tr2
      | (st2, tr2, some e) => (st2, tr2, .error e)) := rfl

theorem lookup_putStore_self (st : S3State) (bk : String × String) (e : Entry) :
    lookup (putStore st bk e) bk = some e := by
  simp [lookup, putStore, List.find?]

/-- Happy-path evaluation of a single record: no fault on the probe,
output key absent, fetch succeeds on a stored decodable image, write
succeeds. The record produces exactly one head, one get and one put,
writes the composed document at the derived key, and raises nothing. -/
theorem processRecord_happy (env : Env) (st : S3State) (tr : Trace)
    (bucket key : String) (etag : Option String) (fsize : Nat) (img : ImageInfo)
    (hhf : env.headFault bucket (metadataKey env key) = Option.none)
    (hmk : lookup st (bucket, metadataKey env key) = Option.none)
    (hgf : env.getFault bucket key = false)
    (hobj : lookup st (bucket, key) = some (.blob fsize (some img)))
    (hpf : env.putFault bucket (metadataKey env key) = false) :
    processRecord env st tr (.ok bucket key etag) =
      (putStore st (bucket, metadataKey env key)
        (.jsonDoc
          { source_bucket := bucket
            source_key := key
            etag := etag
            format := img.format
            width := img.width
            height := img.height
            file_size_bytes := fsize
            exif := exifOrEmpty (extract_exif env.tags img.exifRes)
            processed_at := env.now }),
       { heads := tr.heads ++ [(bucket, metadataKey env key)]
         gets := tr.gets ++ [(bucket, key)]
         puts := tr.puts ++ [(bucket, metadataKey env key,
           { source_bucket := bucket
             source_key := key
             etag := etag
             format := img.format
             width := img.width
             height := img.height
             file_size_bytes := fsize
             exif := exifOrEmpty (extract_exif env.tags img.exifRes)
             processed_at := env.now })] },
       Option.none) := by
  simp [processRecord, headResult, hhf, hmk, metadata_exists, hgf, hobj, hpf]

/-- A record whose derived output key already exists (and whose probe
does not fault) is skipped: the store is unchanged, only a head call is
recorded, and no exception is raised. -/
theorem processRecord_skip (env : Env) (st : S3State) (tr : Trace)
    (bucket key : String) (etag : Option String) (ent : Entry)
    (hhf : env.headFault bucket (metadataKey env key) = Option.none)
    (hmk : lookup st (bucket, metadataKey env key) = some ent) :
    processRecord env st tr (.ok bucket key etag) =
      (st, { tr with heads := tr.heads ++ [(bucket, metadataKey env key)] },
       Option.none) := by
  simp only [processRecord, headResult, hhf, hmk, metadata_exists]

/-- A failing record aborts the whole remaining batch: if the records
before it all succeed and it raises, the handler re-raises at that
point and the records after it contribute nothing to the store or the
trace. -/
theorem lambda_handler_abort (env : Env) (pre : List RecordBody) (r : RecordBody)
    (post : List RecordBody) (st0 st1 st2 : S3State) (tr0 tr1 tr2 : Trace) (e : Err)
    (h1 : lambda_handler env pre st0 tr0 = (st1, tr1, .ok 200))
    (h2 : processRecord env st1 tr1 r = (st2, tr2, some e)) :
    lambda_handler env (pre ++ r :: post) st0 tr0 = (st2, tr2, .error e) := by
  induction pre generalizing st0 tr0 with
  | nil =>
    rw [lambda_handler_nil] at h1
    have e1 : st0 = st1 := congrArg Prod.fst h1
    have e2 : tr0 = tr1 := congrArg (fun p => p.2.1) h1
    subst e1
    subst e2
    rw [List.nil_append, lambda_handler_cons, h2]
  | cons a pre ih =>
    rw [List.cons_append, lambda_handler_cons]
    rw [lambda_handler_cons] at h1
    rcases hpa : processRecord env st0 tr0 a with ⟨st3, tr3, oe⟩
    rw [hpa] at h1
    cases oe with
    | none =>
      simp only [] at h1 ⊢
      exact ih st3 tr3 h1
    | some e2 =>
      simp only [] at h1
      exact absurd (congrArg (fun p => p.2.2) h1) (by simp)

/-- C1: any exception while processing one message aborts the whole
remaining batch: if the messages before it succeed and it raises, the
handler re-raises that exception at that point, and the messages after
it contribute nothing to the store or to the head/get/put trace — in
particular no fetch is attempted and no document is written for any
later message. -/
theorem batch_abort_on_first_error (env : Env) (pre : List RecordBody) (r : RecordBody)
    (post : List RecordBody) (st0 st1 st2 : S3State) (tr0 tr1 tr2 : Trace) (e : Err)
    (h1 : lambda_handler env pre st0 tr0 = (st1, tr1, .ok 200))
    (h2 : processRecord env st1 tr1 r = (st2, tr2, some e)) :
    lambda_handler env (pre ++ r :: post) st0 tr0 = (st2, tr2, .error e) :=
  lambda_handler_abort env pre r post st0 st1 st2 tr0 tr1 tr2 e h1 h2

/-- C1 witness: a batch of three messages where the fetch of the second
fails. The handler re-raises the fetch error; the trace shows no fetch
for the third message and a document written only for the first. -/
theorem batch_abort_witness :
    lambda_handler envW [m1W, m2W, m3W] stW trW = (st1W, tr2W, .error .getErr) ∧
    tr2W.puts = [("b", "metadata/img1.jpg.json", doc1W)] ∧
    tr2W.gets = [("b", "photos/img1.jpg")] :=
  ⟨batch_abort_on_first_error envW [m1W] m2W [m3W] stW st1W st1W trW tr1W tr2W .getErr
    (by rfl) (by rfl), rfl, rfl⟩

/-- C2: a message whose derived metadata key already exists in the
store is skipped: no get and no put happens for it, nothing is raised,
and the handler continues with the remaining messages from an
unchanged store. -/
theorem message_skipped_when_metadata_exists (env : Env) (st : S3State) (tr : Trace)
    (bucket key : String) (etag : Option String) (rs : List RecordBody) (ent : Entry)
    (hhf : env.headFault bucket (metadataKey env key) = Option.none)
    (hmk : lookup st (bucket, metadataKey env key) = some ent) :
    processRecord env st tr (.ok bucket key etag)
      = (st, { tr with heads := tr.heads ++ [(bucket, metadataKey env key)] },
         Option.none) ∧
    lambda_handler env (.ok bucket key etag :: rs) st tr
      = lambda_handler env rs st
          { tr with heads := tr.heads ++ [(bucket, metadataKey env key)] } := by
  have hp := processRecord_skip env st tr bucket key etag ent hhf hmk
  exact ⟨hp, by rw [lambda_handler_cons, hp]⟩

/-- C2 witness: re-delivering the first message after its document has
been written performs only the existence probe and changes nothing. -/
theorem message_skipped_witness :
    processRecord envW st1W trW m1W
      = (st1W, { trW with heads := trW.heads ++ [("b", metadataKey envW "photos/img1.jpg")] },
         Option.none) ∧
    lambda_handler envW [m1W] st1W trW
      = lambda_handler envW [] st1W
          { trW with heads := trW.heads ++ [("b", metadataKey envW "photos/img1.jpg")] } :=
  message_skipped_when_metadata_exists envW st1W trW "b" "photos/img1.jpg" (some "e1") []
    (.jsonDoc doc1W) (by rfl) (by rfl)

/-- C3: on the happy path the output path is
output_prefix/(last segment of key).json and the written document is
exactly the nine-field record composed from the addressing fields, the
decoded image, the advertised content length, the extracted tag data
and the clock. -/
theorem happy_path_write (env : Env) (st : S3State) (tr : Trace)
    (bucket key : String) (etag : Option String) (fsize : Nat) (img : ImageInfo)
    (hhf : env.headFault bucket (metadataKey env key) = Option.none)
    (hmk : lookup st (bucket, metadataKey env key) = Option.none)
    (hgf : env.getFault bucket key = false)
    (hobj : lookup st (bucket, key) = some (.blob fsize (some img)))
    (hpf : env.putFault bucket (metadataKey env key) = false) :
    metadataKey env key = env.outputPfx ++ "/" ++ pathName key ++ ".json" ∧
    processRecord env st tr (.ok bucket key etag) =
      (putStore st (bucket, metadataKey env key)
        (.jsonDoc
          { source_bucket := bucket
            source_key := key
            etag := etag
            format := img.format
            width := img.width
            height := img.height
            file_size_bytes := fsize
            exif := exifOrEmpty (extract_exif env.tags img.exifRes)
            processed_at := env.now }),
       { heads := tr.heads ++ [(bucket, metadataKey env key)]
         gets := tr.gets ++ [(bucket, key)]
         puts := tr.puts ++ [(bucket, metadataKey env key,
           { source_bucket := bucket
             source_key := key
             etag := etag
             format := img.format
             width := img.width
             height := img.height
             file_size_bytes := fsize
             exif := exifOrEmpty (extract_exif env.tags img.exifRes)
             processed_at := env.now })] },
       Option.none) :=
  ⟨rfl, processRecord_happy env st tr bucket key etag fsize img hhf hmk hgf hobj hpf⟩

/-- C3 witness: the spec scenario. Message bucket b, key
photos/img1.jpg, etag abc, prefix metadata, a 100 by 200 JPEG with no
tag data and 1111 bytes: the document written at
b/metadata/img1.jpg.json is exactly docCW (exif empty). -/
theorem happy_path_witness :
    metadataKey envW "photos/img1.jpg"
        = envW.outputPfx ++ "/" ++ pathName "photos/img1.jpg" ++ ".json" ∧
    processRecord envW stW trW (.ok "b" "photos/img1.jpg" (some "abc")) =
      (putStore stW ("b", "metadata/img1.jpg.json") (.jsonDoc docCW),
       { heads := [("b", "metadata/img1.jpg.json")]
         gets := [("b", "photos/img1.jpg")]
         puts := [("b", "metadata/img1.jpg.json", docCW)] },
       Option.none) :=
  happy_path_write envW stW trW "b" "photos/img1.jpg" (some "abc") 1111 imgW
    (by rfl) (by rfl) (by rfl) (by rfl) (by rfl)

/-- C4: when no tag data is present (a falsy raw mapping) or reading
the tag data raises, extraction does not fail: `extract_exif` returns
None and the exif field of the document is the empty mapping, never
null or absent. -/
theorem exif_empty_on_missing_or_error (tags : Nat → Option String)
    (res : Except Unit (Option (List (Nat × PyVal))))
    (h : res = .error () ∨ res = .ok Option.none ∨ res = .ok (some [])) :
    extract_exif tags res = Option.none ∧
    exifOrEmpty (extract_exif tags res) = [] := by
  rcases h with rfl | rfl | rfl <;> simp [extract_exif, exifOrEmpty]

/-- C4 witness: an image with no tag data yields the empty exif
mapping. -/
theorem exif_empty_witness :
    extract_exif (fun _ => Option.none) (.ok Option.none) = Option.none ∧
    exifOrEmpty (extract_exif (fun _ => Option.none) (.ok Option.none)) = [] :=
  exif_empty_on_missing_or_error (fun _ => Option.none) (.ok Option.none)
    (Or.inr (Or.inl rfl))

/-- C5: the idempotency checker returns true exactly when the probe
succeeds, false exactly when the probe fails with the not-found code
404, and re-raises every other outcome unchanged — no other error is
ever read as "does not exist". -/
theorem metadata_exists_spec (r : HeadResult) :
    (metadata_exists r = .ok true ↔ r = .ok) ∧
    (metadata_exists r = .ok false ↔ r = .clientError "404") ∧
    (∀ e, metadata_exists r = .error e ↔
      (e = r ∧ r ≠ .ok ∧ r ≠ .clientError "404")) := by
  rcases r with _ | code | n
  · simp [metadata_exists]
  · by_cases hc : code = "404" <;>
      simp [metadata_exists, hc, eq_comm]
  · simp [metadata_exists, eq_comm]

/-- C10: two messages in the same bucket whose keys share the same last
path segment derive the same metadata key; after the first is
processed, the second is skipped by the idempotency gate, so exactly
one document is written and only the first key is ever fetched. -/
theorem duplicate_filename_second_skipped (env : Env) (b k1 k2 : String)
    (e1 e2 : Option String) (st : S3State) (tr : Trace) (fsize : Nat) (img : ImageInfo)
    (hname : pathName k1 = pathName k2)
    (hhf : env.headFault b (metadataKey env k1) = Option.none)
    (hmk : lookup st (b, metadataKey env k1) = Option.none)
    (hgf : env.getFault b k1 = false)
    (hobj : lookup st (b, k1) = some (.blob fsize (some img)))
    (hpf : env.putFault b (metadataKey env k1) = false) :
    metadataKey env k2 = metadataKey env k1 ∧
    ∃ doc st2 tr2,
      lambda_handler env [.ok b k1 e1, .ok b k2 e2] st tr = (st2, tr2, .ok 200) ∧
      tr2.gets = tr.gets ++ [(b, k1)] ∧
      tr2.puts = tr.puts ++ [(b, metadataKey env k1, doc)] ∧
      doc.source_key = k1 := by
  have hkey : metadataKey env k2 = metadataKey env k1 := by
    unfold metadataKey
    rw [hname]
  have step1 := processRecord_happy env st tr b k1 e1 fsize img hhf hmk hgf hobj hpf
  refine ⟨hkey,
    { source_bucket := b
      source_key := k1
      etag := e1
      format := img.format
      width := img.width
      height := img.height
      file_size_bytes := fsize
      exif := exifOrEmpty (extract_exif env.tags img.exifRes)
      processed_at := env.now },
    putStore st (b, metadataKey env k1)
      (.jsonDoc
        { source_bucket := b
          source_key := k1
          etag := e1
          format := img.format
          width := img.width
          height := img.height
          file_size_bytes := fsize
          exif := exifOrEmpty (extract_exif env.tags img.exifRes)
          processed_at := env.now }),
    { heads := (tr.heads ++ [(b, metadataKey env k1)]) ++ [(b, metadataKey env k2)]
      gets := tr.gets ++ [(b, k1)]
      puts := tr.puts ++ [(b, metadataKey env k1,
        { source_bucket := b
          source_key := k1
          etag := e1
          format := img.format
          width := img.width
          height := img.height
          file_size_bytes := fsize
          exif := exifOrEmpty (extract_exif env.tags img.exifRes)
          processed_at := env.now })] },
    ?_, rfl, rfl, rfl⟩
  rw [lambda_handler_cons, step1]
  simp only []
  have step2 := processRecord_skip env
    (putStore st (b, metadataKey env k1)
      (.jsonDoc
        { source_bucket := b
          source_key := k1
          etag := e1
          format := img.format
          width := img.width
          height := img.height
          file_size_bytes := fsize
          exif := exifOrEmpty (extract_exif env.tags img.exifRes)
          processed_at := env.now }))
    { heads := tr.heads ++ [(b, metadataKey env k1)]
      gets := tr.gets ++ [(b, k1)]
      puts := tr.puts ++ [(b, metadataKey env k1,
        { source_bucket := b
          source_key := k1
          etag := e1
          format := img.format
          width := img.width
          height := img.height
          file_size_bytes := fsize
          exif := exifOrEmpty (extract_exif env.tags img.exifRes)
          processed_at := env.now })] }
    b k2 e2
    (.jsonDoc
      { source_bucket := b
        source_key := k1
        etag := e1
        format := img.format
        width := img.width
        height := img.height
        file_size_bytes := fsize
        exif := exifOrEmpty (extract_exif env.tags img.exifRes)
        processed_at := env.now })
    (by rw [hkey]; exact hhf)
    (by rw [hkey]; exact lookup_putStore_self ..)
  rw [lambda_handler_cons, step2]
  simp only []
  rw [lambda_handler_nil]

/-- C10 witness: keys a/img.jpg and b/img.jpg in bucket bkt collide on
metadata/img.jpg.json; processing both writes one document and never
fetches the second key. -/
theorem duplicate_filename_witness :
    metadataKey envW "b/img.jpg" = metadataKey envW "a/img.jpg" ∧
    ∃ doc st2 tr2,
      lambda_handler envW
          [.ok "bkt" "a/img.jpg" Option.none, .ok "bkt" "b/img.jpg" Option.none]
          stDW trW = (st2, tr2, .ok 200) ∧
      tr2.gets = trW.gets ++ [("bkt", "a/img.jpg")] ∧
      tr2.puts = trW.puts ++ [("bkt", metadataKey envW "a/img.jpg", doc)] ∧
      doc.source_key = "a/img.jpg" :=
  duplicate_filename_second_skipped envW "bkt" "a/img.jpg" "b/img.jpg"
    Option.none Option.none stDW trW 10 imgW
    (by rfl) (by rfl) (by rfl) (by rfl) (by rfl) (by rfl)

end MetadataLab
